import Mathlib

/-!
Verification of the `trust` package of the `nih` repository (Go).

The package validates a certificate chain and a root set against a strict
structural policy (exact key-usage bitmasks, CA/leaf role separation,
extended-key-usage requirements) and exposes the validated identity as a
TLS configuration with a fully custom peer verifier.

The embedding below translates `src/trust/bundle.go` into Lean.  Certificates
are modelled by the fields the trust code reads (`IsCA`, `KeyUsage`,
`ExtKeyUsage`, `BasicConstraintsValid`, `Raw`, the subject public key).
Calls into the Go standard library (`x509.Certificate.Verify`,
`x509.ParseCertificate`, `x509.ParsePKCS8PrivateKey`) are abstracted as an
explicit environment parameter `X509Env`, since that code is outside the
repository; the structure of every function of `bundle.go` itself is
translated faithfully, including the possibility of a runtime panic on an
out-of-range slice index, modelled by `GoResult.panic`.
-/

set_option autoImplicit false

namespace Trust

/-- Raw DER-encoded bytes of a single certificate, abstracted as an atom.
`pem.Block.Bytes` for a certificate block is a list of such atoms, so that
concatenating block contents (as `LoadCertificates` does) concatenates
lists. -/
abbrev Raw := Nat

/-- The fields of Go's `x509.Certificate` that the trust package reads. -/
structure Certificate where
  raw : Raw
  isCA : Bool
  keyUsage : Nat
  extKeyUsage : List Nat
  basicConstraintsValid : Bool
  pubKey : Nat
  deriving DecidableEq, Repr

/-- Go's `x509.KeyUsageDigitalSignature` (bit 0 of the key-usage bitmask). -/
def keyUsageDigitalSignature : Nat := 1

/-- Go's `x509.KeyUsageCertSign` (bit 5 of the key-usage bitmask). -/
def keyUsageCertSign : Nat := 32

/-- Go's `x509.ExtKeyUsageServerAuth`. -/
def extKeyUsageServerAuth : Nat := 1

/-- Go's `x509.ExtKeyUsageClientAuth`. -/
def extKeyUsageClientAuth : Nat := 2

/-- Go's `x509.ExtKeyUsageCodeSigning` (used only as an "extra" value in
counterexamples). -/
def extKeyUsageCodeSigning : Nat := 3

/-- Go's `crypto.Signer`: something holding a private key whose public half
is `pub`.  The trust package never inspects it beyond storing it. -/
structure Signer where
  pub : Nat
  deriving DecidableEq, Repr

/-- One PEM block as returned by `pem.Decode`: a type tag and contents. -/
structure Block where
  type : String
  bytes : List Raw
  deriving DecidableEq, Repr

/-- The behaviour of the Go standard library calls the trust package makes,
abstracted: `verify c intermediates roots` is `c.Verify` with the given
intermediate and root pools (`none` = success, `some e` = the error
message); `parseCert` is `x509.ParseCertificate`; `parsePKCS8` is
`x509.ParsePKCS8PrivateKey` followed by the `crypto.Signer` assertion. -/
structure X509Env where
  verify : Certificate → List Certificate → List Certificate → Option String
  parseCert : Raw → Except String Certificate
  parsePKCS8 : List Raw → Except String Signer

/-- Outcome of running a Go function that may return an error or panic. -/
inductive GoResult (α : Type) where
  | panic : String → GoResult α
  | err : String → GoResult α
  | ok : α → GoResult α
  deriving DecidableEq, Repr

/-- Go's `tls.ClientHelloInfo`, reduced to the requested server name (the
only field a certificate-selection callback could react to). -/
structure ClientHelloInfo where
  serverName : String
  deriving DecidableEq, Repr

/-- Go's `tls.CertificateRequestInfo`, opaque to this package. -/
structure CertificateRequestInfo where
  id : Nat
  deriving DecidableEq, Repr

/-- Go's `tls.Certificate` as populated by `NewBundle`. -/
structure TLSCertificate where
  certificate : List Raw
  privateKey : Signer
  leaf : Certificate
  deriving DecidableEq, Repr

/-- Go's `tls.ClientAuthType` constants. -/
inductive ClientAuthType where
  | NoClientCert
  | RequestClientCert
  | RequireAnyClientCert
  | VerifyClientCertIfGiven
  | RequireAndVerifyClientCert
  deriving DecidableEq, Repr

/-- Go's `tls.VersionTLS13`. -/
def VersionTLS13 : Nat := 0x0304

/-- `Bundle` from `bundle.go`: the credentials required to communicate. -/
structure Bundle where
  cert : TLSCertificate
  roots : List Certificate
  deriving DecidableEq, Repr

/-- `validateCertificate` from `bundle.go`: fails when basic constraints
are not marked valid. -/
def validateCertificate (c : Certificate) : Option String :=
  if !c.basicConstraintsValid then some "basic constraints invalid" else none

/-- The flag-setting loop of `validateLeaf`: walks `ExtKeyUsage` setting
`clientAuth` and `serverAuth` when the respective value is seen. -/
def leafEKUFlags (ekus : List Nat) : Bool × Bool :=
  ekus.foldl
    (fun acc u =>
      if u = extKeyUsageClientAuth then (true, acc.2)
      else if u = extKeyUsageServerAuth then (acc.1, true)
      else acc)
    (false, false)

/-- `validateLeaf` from `bundle.go`. -/
def validateLeaf (c : Certificate) : Option String :=
  match validateCertificate c with
  | some e => some e
  | none =>
    if c.isCA then some "is a CA"
    else if c.keyUsage ≠ keyUsageDigitalSignature then some "invalid key usage"
    else
      let flags := leafEKUFlags c.extKeyUsage
      if !(flags.1 && flags.2) then some "invalid extended key usage"
      else none

/-- `verifyCA` from `bundle.go`: CA flag, exact cert-sign key usage, empty
extended key usage, then generic path validation against `roots` with no
intermediates. -/
def verifyCA (env : X509Env) (c : Certificate) (roots : List Certificate) : Option String :=
  if !c.isCA then some "not a CA"
  else if c.keyUsage ≠ keyUsageCertSign then some "invalid key usage"
  else if c.extKeyUsage.length ≠ 0 then some "invalid extended key usage"
  else env.verify c [] roots

/-- `verifyIntermediate` from `bundle.go`. -/
def verifyIntermediate (env : X509Env) (c : Certificate) (roots : List Certificate) :
    Option String :=
  match validateCertificate c with
  | some e => some e
  | none => verifyCA env c roots

/-- `verifyRoot` from `bundle.go`: a root is validated against the
singleton pool containing itself. -/
def verifyRoot (env : X509Env) (c : Certificate) : Option String :=
  match validateCertificate c with
  | some e => some e
  | none => verifyCA env c [c]

/-- The `for i, c := range chain[1:]` loop of `verifyChain`: returns the
indexed error of the first intermediate that fails `verifyIntermediate`
(the index starts at 1, the position in the original chain). -/
def intermediatesLoop (env : X509Env) (roots : List Certificate) :
    Nat → List Certificate → Option String
  | _, [] => none
  | i, c :: rest =>
    match verifyIntermediate env c roots with
    | some e => some ("chain[" ++ toString i ++ "]: " ++ e)
    | none => intermediatesLoop env roots (i + 1) rest

/-- `verifyChain` from `bundle.go`.  `chain[0]` on an empty chain is a Go
runtime panic, modelled by `GoResult.panic`.  On success the intermediate
pool passed to the final `Verify` call holds exactly `chain[1:]` in order. -/
def verifyChain (env : X509Env) (chain : List Certificate) (roots : List Certificate) :
    GoResult Certificate :=
  match chain with
  | [] => .panic "runtime error: index out of range [0] with length 0"
  | leaf :: rest =>
    match validateLeaf leaf with
    | some e => .err ("chain[0]: " ++ e)
    | none =>
      match intermediatesLoop env roots 1 rest with
      | some e => .err e
      | none =>
        match env.verify leaf rest roots with
        | some e => .err e
        | none => .ok leaf

/-- The `for i, c := range roots` loop of `NewBundle`: the first root
failing `verifyRoot` yields an error naming its index. -/
def rootsLoop (env : X509Env) : Nat → List Certificate → Option String
  | _, [] => none
  | i, c :: rest =>
    match verifyRoot env c with
    | some e => some ("trust: root[" ++ toString i ++ "]: " ++ e)
    | none => rootsLoop env (i + 1) rest

/-- `NewBundle` from `bundle.go`. -/
def NewBundle (env : X509Env) (chain : List Certificate) (signer : Signer)
    (roots : List Certificate) : GoResult Bundle :=
  if chain.length = 0 then .err "trust: empty chain"
  else if roots.length = 0 then .err "trust: empty roots"
  else
    match rootsLoop env 0 roots with
    | some e => .err e
    | none =>
      match verifyChain env chain roots with
      | .panic m => .panic m
      | .err e => .err ("trust: " ++ e)
      | .ok leaf =>
        .ok { cert := { certificate := chain.map Certificate.raw
                        privateKey := signer
                        leaf := leaf }
              roots := roots }

/-- The parsing loop of Go's `x509.ParseCertificates` (called by
`LoadCertificates` on the concatenated certificate DER): parses one
certificate per atom, stopping at the first parse error; an empty input
yields the empty list with no error. -/
def parseCertificates (env : X509Env) : List Raw → Except String (List Certificate)
  | [] => .ok []
  | d :: rest =>
    match env.parseCert d with
    | .error e => .error e
    | .ok c =>
      match parseCertificates env rest with
      | .error e => .error e
      | .ok cs => .ok (c :: cs)

/-- A file system: maps a file name to its PEM content, a list of blocks
(`.error` models an `os.ReadFile` failure).  `pem.Decode` on such content
returns the head block and the remaining blocks. -/
abbrev FileSystem := String → Except String (List Block)

/-- The block-collecting loop of `LoadCertificates`: repeated `pem.Decode`,
skipping blocks whose type is not `CERTIFICATE`, concatenating the DER
contents of the certificate blocks in file order. -/
def collectCertificateDER : List Block → List Raw
  | [] => []
  | blk :: rest =>
    if blk.type ≠ "CERTIFICATE" then collectCertificateDER rest
    else blk.bytes ++ collectCertificateDER rest

/-- `LoadCertificates` from `bundle.go`. -/
def LoadCertificates (env : X509Env) (fs : FileSystem) (name : String) :
    Except String (List Certificate) :=
  match fs name with
  | .error e => .error e
  | .ok contents => parseCertificates env (collectCertificateDER contents)

/-- `LoadPrivateKey` from `bundle.go`: one `pem.Decode` call, the remainder
of the file is discarded; the decoded block must be a `PRIVATE KEY` block,
whose contents are parsed as PKCS #8. -/
def LoadPrivateKey (env : X509Env) (fs : FileSystem) (name : String) :
    Except String Signer :=
  match fs name with
  | .error e => .error e
  | .ok contents =>
    match contents.head? with
    | none => .error ("trust: load " ++ name ++ ": no private key found")
    | some blk =>
      if blk.type ≠ "PRIVATE KEY" then
        .error ("trust: load " ++ name ++ ": no private key found")
      else env.parsePKCS8 blk.bytes

/-- `LoadPEM` from `bundle.go`. -/
def LoadPEM (env : X509Env) (fs : FileSystem) (certFile keyFile caFile : String) :
    GoResult Bundle :=
  match LoadCertificates env fs certFile with
  | .error e => .err e
  | .ok chain =>
    match LoadPrivateKey env fs keyFile with
    | .error e => .err e
    | .ok signer =>
      match LoadCertificates env fs caFile with
      | .error e => .err e
      | .ok roots => NewBundle env chain signer roots

/-- The parsing loop of `verifyPeerCertificate`: each raw peer certificate
is parsed with `x509.ParseCertificate`, aborting at the first error. -/
def parsePeerCerts (env : X509Env) : List Raw → Except String (List Certificate)
  | [] => .ok []
  | raw :: rest =>
    match env.parseCert raw with
    | .error e => .error e
    | .ok c =>
      match parsePeerCerts env rest with
      | .error e => .error e
      | .ok cs => .ok (c :: cs)

/-- `(*Bundle).verifyPeerCertificate` from `bundle.go`: decodes the
presented raw chain and runs `verifyChain` against the bundle's roots.
The second argument (`verifiedChains`) is ignored by the code. -/
def Bundle.verifyPeerCertificate (env : X509Env) (b : Bundle) (rawCerts : List Raw)
    (_verifiedChains : List (List Certificate)) : GoResult Unit :=
  match parsePeerCerts env rawCerts with
  | .error e => .err e
  | .ok chain =>
    match verifyChain env chain b.roots with
    | .panic m => .panic m
    | .err e => .err e
    | .ok _ => .ok ()

/-- `(*Bundle).getCertificate` from `bundle.go`. -/
def Bundle.getCertificate (b : Bundle) (_hello : ClientHelloInfo) :
    Except String TLSCertificate :=
  .ok b.cert

/-- `(*Bundle).getClientCertificate` from `bundle.go`. -/
def Bundle.getClientCertificate (b : Bundle) (_cri : CertificateRequestInfo) :
    Except String TLSCertificate :=
  .ok b.cert

/-- The fields of Go's `tls.Config` that `TLSConfig` sets. -/
structure TLSConfig where
  getCertificate : ClientHelloInfo → Except String TLSCertificate
  getClientCertificate : CertificateRequestInfo → Except String TLSCertificate
  verifyPeerCertificate : List Raw → List (List Certificate) → GoResult Unit
  clientAuth : ClientAuthType
  insecureSkipVerify : Bool
  minVersion : Nat

/-- `(*Bundle).TLSConfig` from `bundle.go`. -/
def Bundle.TLSConfig (env : X509Env) (b : Bundle) : TLSConfig :=
  { getCertificate := b.getCertificate
    getClientCertificate := b.getClientCertificate
    verifyPeerCertificate := b.verifyPeerCertificate env
    clientAuth := .RequireAnyClientCert
    insecureSkipVerify := true
    minVersion := VersionTLS13 }

/-!
Concrete fixtures used by counterexamples and witnesses.  The certificates
mirror what the repository's credential generator produces (`trustgen.go`):
a root and an intermediate with `IsCA`, exact `KeyUsageCertSign` and no
extended key usage, and a leaf with exact `KeyUsageDigitalSignature` and
`{clientAuth, serverAuth}` extended key usage.
-/

/-- A policy-conforming self-signed root (shape of `trustgen.NewRoot`). -/
def goodRoot : Certificate :=
  { raw := 1, isCA := true, keyUsage := keyUsageCertSign, extKeyUsage := [],
    basicConstraintsValid := true, pubKey := 10 }

/-- A policy-conforming intermediate (shape of `trustgen.NewIntermediate`). -/
def goodInt : Certificate :=
  { raw := 2, isCA := true, keyUsage := keyUsageCertSign, extKeyUsage := [],
    basicConstraintsValid := true, pubKey := 11 }

/-- A policy-conforming leaf (shape of `trustgen.NewLeaf`). -/
def goodLeaf : Certificate :=
  { raw := 3, isCA := false, keyUsage := keyUsageDigitalSignature,
    extKeyUsage := [extKeyUsageClientAuth, extKeyUsageServerAuth],
    basicConstraintsValid := true, pubKey := 12 }

/-- A leaf carrying an extra extended-key-usage value beyond client-auth and
server-auth. -/
def extraEKULeaf : Certificate :=
  { raw := 4, isCA := false, keyUsage := keyUsageDigitalSignature,
    extKeyUsage := [extKeyUsageClientAuth, extKeyUsageServerAuth, extKeyUsageCodeSigning],
    basicConstraintsValid := true, pubKey := 13 }

/-- A would-be root whose CA flag is cleared (the repository's own negative
test "root is not a CA"). -/
def notCARoot : Certificate :=
  { raw := 5, isCA := false, keyUsage := keyUsageCertSign, extKeyUsage := [],
    basicConstraintsValid := true, pubKey := 14 }

/-- A signer matching `goodLeaf`'s public key. -/
def goodSigner : Signer := { pub := 12 }

/-- A signer whose public key matches no fixture certificate. -/
def mismatchSigner : Signer := { pub := 999 }

/-- The signer produced by the abstract PKCS #8 parser of `envFull`. -/
def keyFixture : Signer := { pub := 7 }

/-- An environment in which every generic path validation succeeds and no
raw bytes parse (parsing is never reached in the claims using it). -/
def envAllOk : X509Env :=
  { verify := fun _ _ _ => none
    parseCert := fun _ => .error "x509: malformed certificate"
    parsePKCS8 := fun _ => .error "x509: failed to parse private key" }

/-- An environment in which path validation succeeds, the DER atom `1`
parses to `goodRoot`, and PKCS #8 parsing yields `keyFixture`. -/
def envFull : X509Env :=
  { verify := fun _ _ _ => none
    parseCert := fun r => if r = 1 then .ok goodRoot else .error "x509: malformed certificate"
    parsePKCS8 := fun _ => .ok keyFixture }

/-- A PEM block holding a PKCS #8 private key. -/
def pkBlock : Block := { type := "PRIVATE KEY", bytes := [100] }

/-- A PEM certificate block whose DER parses to `goodRoot`. -/
def certBlockRoot : Block := { type := "CERTIFICATE", bytes := [1] }

/-- A well-formed PEM block of a type the loaders do not recognise. -/
def garbageBlock : Block := { type := "GARBAGE", bytes := [9] }

/-!  Characterisation of the extended-key-usage flag loop of `validateLeaf`. -/

/-- The flag loop computes exactly the memberships of client-auth and
server-auth in the extended-key-usage list, starting from any
accumulator. -/
theorem leafEKUFlags_foldl (ekus : List Nat) (acc : Bool × Bool) :
    ekus.foldl
      (fun acc u =>
        if u = extKeyUsageClientAuth then (true, acc.2)
        else if u = extKeyUsageServerAuth then (acc.1, true)
        else acc)
      acc
    = (acc.1 || decide (extKeyUsageClientAuth ∈ ekus),
       acc.2 || decide (extKeyUsageServerAuth ∈ ekus)) := by
  induction ekus generalizing acc with
  | nil => simp
  | cons u rest ih =>
    rw [List.foldl_cons, ih]
    by_cases hc : u = extKeyUsageClientAuth
    · subst hc
      simp [List.mem_cons, (by decide : ¬(extKeyUsageServerAuth = extKeyUsageClientAuth))]
    · by_cases hs : u = extKeyUsageServerAuth
      · subst hs
        simp [List.mem_cons, hc, (by decide : ¬(extKeyUsageClientAuth = extKeyUsageServerAuth))]
      · simp [List.mem_cons, hc, hs, Ne.symm hc, Ne.symm hs]

/-- `leafEKUFlags` decides the two required memberships. -/
theorem leafEKUFlags_eq (ekus : List Nat) :
    leafEKUFlags ekus
      = (decide (extKeyUsageClientAuth ∈ ekus), decide (extKeyUsageServerAuth ∈ ekus)) := by
  simpa [leafEKUFlags] using leafEKUFlags_foldl ekus (false, false)

/-- `validateLeaf` in closed form: the first violated rule's message, or
success when basic constraints are valid, the certificate is not a CA, the
key usage is exactly digital-signature, and the extended key usage contains
both client-auth and server-auth (extra values are not rejected). -/
theorem validateLeaf_eq (c : Certificate) :
    validateLeaf c =
      if c.basicConstraintsValid = false then some "basic constraints invalid"
      else if c.isCA = true then some "is a CA"
      else if c.keyUsage ≠ keyUsageDigitalSignature then some "invalid key usage"
      else if ¬(extKeyUsageClientAuth ∈ c.extKeyUsage ∧
                extKeyUsageServerAuth ∈ c.extKeyUsage) then
        some "invalid extended key usage"
      else none := by
  unfold validateLeaf validateCertificate
  cases hb : c.basicConstraintsValid with
  | false => simp
  | true =>
    cases hca : c.isCA with
    | true => simp
    | false =>
      by_cases hku : c.keyUsage = keyUsageDigitalSignature
      · simp only [leafEKUFlags_eq, hku, if_pos rfl]
        by_cases hek : extKeyUsageClientAuth ∈ c.extKeyUsage ∧
            extKeyUsageServerAuth ∈ c.extKeyUsage
        · simp [hek]
        · simp [hek]
      · simp [hku]

/-- C1 (counterexample): the claim requires `validateLeaf` to fail when
`extendedKeyUsage` contains a value other than client-auth and server-auth,
but on a certificate with valid basic constraints, `isCA = false`,
`keyUsage = {digitalSignature}` and extended key usage
`{clientAuth, serverAuth, codeSigning}` — which carries the extra value
code-signing — `validateLeaf` succeeds. -/
theorem validateLeaf_allows_extra_eku :
    validateLeaf extraEKULeaf = none ∧
    extraEKULeaf.basicConstraintsValid = true ∧
    extraEKULeaf.isCA = false ∧
    extraEKULeaf.keyUsage = keyUsageDigitalSignature ∧
    extKeyUsageCodeSigning ∈ extraEKULeaf.extKeyUsage ∧
    extKeyUsageCodeSigning ≠ extKeyUsageClientAuth ∧
    extKeyUsageCodeSigning ≠ extKeyUsageServerAuth := by
  refine ⟨rfl, rfl, rfl, rfl, ?_, ?_, ?_⟩ <;> decide

/-- C1 (amended): `validateLeaf(c)` succeeds if and only if
`c.basicConstraintsValid` is true, `c.isCA` is false, `c.keyUsage` is
exactly the single digital-signature bit, and `c.extendedKeyUsage` contains
both client-auth and server-auth — values beyond these two are permitted;
on any other input it fails naming the violated rule (one of the four rule
messages). -/
theorem validateLeaf_spec (c : Certificate) :
    (validateLeaf c = none ↔
      c.basicConstraintsValid = true ∧ c.isCA = false ∧
      c.keyUsage = keyUsageDigitalSignature ∧
      extKeyUsageClientAuth ∈ c.extKeyUsage ∧
      extKeyUsageServerAuth ∈ c.extKeyUsage) ∧
    (∀ e, validateLeaf c = some e →
      e = "basic constraints invalid" ∨ e = "is a CA" ∨
      e = "invalid key usage" ∨ e = "invalid extended key usage") := by
  rw [validateLeaf_eq]
  constructor
  · by_cases h1 : c.basicConstraintsValid = false
    · rw [if_pos h1]
      exact iff_of_false (by simp) (fun h => by simp [h.1] at h1)
    · rw [if_neg h1]
      have h1' : c.basicConstraintsValid = true := by
        revert h1; cases c.basicConstraintsValid <;> simp
      by_cases h2 : c.isCA = true
      · rw [if_pos h2]
        exact iff_of_false (by simp) (fun h => by simp [h.2.1] at h2)
      · rw [if_neg h2]
        have h2' : c.isCA = false := by
          revert h2; cases c.isCA <;> simp
        by_cases h3 : c.keyUsage ≠ keyUsageDigitalSignature
        · rw [if_pos h3]
          exact iff_of_false (by simp) (fun h => h3 h.2.2.1)
        · rw [if_neg h3]
          by_cases h4 : ¬(extKeyUsageClientAuth ∈ c.extKeyUsage ∧
              extKeyUsageServerAuth ∈ c.extKeyUsage)
          · rw [if_pos h4]
            exact iff_of_false (by simp) (fun h => h4 ⟨h.2.2.2.1, h.2.2.2.2⟩)
          · rw [if_neg h4]
            have h4' := not_not.mp h4
            exact iff_of_true rfl ⟨h1', h2', not_not.mp h3, h4'.1, h4'.2⟩
  · intro e he
    split_ifs at he with h1 h2 h3 h4 <;> simp_all

/-- C1 (witness): the amended characterisation applied to the
policy-conforming leaf fixture. -/
theorem validateLeaf_spec_witness : validateLeaf goodLeaf = none :=
  (validateLeaf_spec goodLeaf).1.mpr (by refine ⟨rfl, rfl, rfl, ?_, ?_⟩ <;> decide)

/-- The bundle `NewBundle` builds when its inputs pass validation with the
mismatched signer (see `NewBundle_ignores_signer_counterexample`). -/
def mismatchOkBundle : Bundle :=
  { cert := { certificate := [goodLeaf.raw, goodInt.raw]
              privateKey := mismatchSigner
              leaf := goodLeaf }
    roots := [goodRoot] }

/-- C2 (counterexample): a signer whose public key differs from the leaf's
public key is accepted by `NewBundle` — no `KeyBindingMismatch` check
exists.  With every path validation succeeding, the policy-conforming
chain `[goodLeaf, goodInt]` and root `[goodRoot]` yield a bundle that
stores the mismatched signer. -/
theorem NewBundle_ignores_signer_counterexample :
    mismatchSigner.pub ≠ goodLeaf.pubKey ∧
    NewBundle envAllOk [goodLeaf, goodInt] mismatchSigner [goodRoot] =
      .ok mismatchOkBundle := by
  exact ⟨by decide, rfl⟩

/-- C2 (amended): `NewBundle` never inspects the signer: whether it returns
a bundle is independent of the signer argument, and any returned bundle
stores the given signer unchecked.  In particular construct does not fail
with `KeyBindingMismatch` when the signer does not match the leaf public
key — no key-binding check is performed. -/
theorem NewBundle_signer_independent (env : X509Env) (chain roots : List Certificate)
    (s1 s2 : Signer) :
    ((∃ b, NewBundle env chain s1 roots = .ok b) ↔
      (∃ b, NewBundle env chain s2 roots = .ok b)) ∧
    (∀ b, NewBundle env chain s1 roots = .ok b → b.cert.privateKey = s1) := by
  constructor
  · unfold NewBundle
    split_ifs
    · simp
    · simp
    · cases rootsLoop env 0 roots with
      | some e => simp
      | none =>
        cases verifyChain env chain roots with
        | panic m => simp
        | err e => simp
        | ok leaf => simp
  · intro b hb
    unfold NewBundle at hb
    split_ifs at hb
    cases hr : rootsLoop env 0 roots with
    | some e => rw [hr] at hb; cases hb
    | none =>
      rw [hr] at hb
      cases hv : verifyChain env chain roots with
      | panic m => rw [hv] at hb; cases hb
      | err e => rw [hv] at hb; cases hb
      | ok leaf =>
        rw [hv] at hb
        cases hb
        rfl

/-- C2 (witness): applying the amended theorem to the concrete mismatched
bundle: the bundle returned for `mismatchSigner` stores that very signer,
whose public key is not the leaf's. -/
theorem NewBundle_signer_independent_witness :
    mismatchOkBundle.cert.privateKey = mismatchSigner :=
  (NewBundle_signer_independent envAllOk [goodLeaf, goodInt] [goodRoot]
    mismatchSigner mismatchSigner).2 mismatchOkBundle rfl

/-- C3 (code bug): `verifyPeerCertificate` applied to the empty list of raw
peer certificates parses an empty chain and hands it to `verifyChain`,
whose unguarded `chain[0]` access is a runtime panic — the code crashes
instead of failing closed with an error, for every environment and
bundle. -/
theorem verifyPeerCertificate_empty_panics (env : X509Env) (b : Bundle) :
    b.verifyPeerCertificate env [] [] =
      .panic "runtime error: index out of range [0] with length 0" := rfl

/-- C6: the TLS configuration of a bundle mandates a client certificate
(`RequireAnyClientCert`), disables built-in verification
(`InsecureSkipVerify = true`) leaving the custom verifier as sole
authority, pins the minimum version to TLS 1.3, and both certificate-offer
callbacks return the bundle's own fixed certificate and key with no error,
regardless of the requested server name or request info. -/
theorem TLSConfig_spec (env : X509Env) (b : Bundle) :
    (b.TLSConfig env).clientAuth = ClientAuthType.RequireAnyClientCert ∧
    (b.TLSConfig env).insecureSkipVerify = true ∧
    (b.TLSConfig env).minVersion = VersionTLS13 ∧
    (∀ hello, (b.TLSConfig env).getCertificate hello = .ok b.cert) ∧
    (∀ cri, (b.TLSConfig env).getClientCertificate cri = .ok b.cert) ∧
    (b.TLSConfig env).verifyPeerCertificate = b.verifyPeerCertificate env :=
  ⟨rfl, rfl, rfl, fun _ => rfl, fun _ => rfl, rfl⟩

/-- C7 (counterexample): with both the chain and the roots empty,
`NewBundle` fails with the empty-chain error, not the empty-roots error —
so "empty roots fails with EmptyRoots regardless of the other inputs" is
false at chain = []. -/
theorem NewBundle_both_empty :
    NewBundle envAllOk [] goodSigner [] = .err "trust: empty chain" ∧
    ("trust: empty chain" : String) ≠ "trust: empty roots" :=
  ⟨rfl, by decide⟩

/-- C7 (amended): an empty chain fails with the EmptyChain error regardless
of signer and roots; an empty root set fails with the EmptyRoots error for
every signer and every non-empty chain (the empty-chain check runs first);
in both cases no bundle is returned. -/
theorem NewBundle_empty_spec (env : X509Env) (signer : Signer)
    (chain roots : List Certificate) :
    NewBundle env [] signer roots = .err "trust: empty chain" ∧
    (chain ≠ [] → NewBundle env chain signer [] = .err "trust: empty roots") := by
  refine ⟨rfl, fun h => ?_⟩
  match chain with
  | [] => exact absurd rfl h
  | c :: cs => rfl

/-- C7 (witness): the amended statement at a concrete non-empty chain. -/
theorem NewBundle_empty_spec_witness :
    NewBundle envAllOk [goodLeaf] goodSigner [] = .err "trust: empty roots" :=
  (NewBundle_empty_spec envAllOk goodSigner [goodLeaf] []).2 (by simp)

/-- The intermediates loop succeeds when every certificate in the list
passes `verifyIntermediate`. -/
theorem intermediatesLoop_eq_none (env : X509Env) (roots : List Certificate)
    (k : Nat) (l : List Certificate)
    (h : ∀ c ∈ l, verifyIntermediate env c roots = none) :
    intermediatesLoop env roots k l = none := by
  induction l generalizing k with
  | nil => rfl
  | cons c rest ih =>
    have hc := h c (List.mem_cons_self c rest)
    simp only [intermediatesLoop, hc]
    exact ih (k + 1) (fun x hx => h x (List.mem_cons_of_mem c hx))

/-- The intermediates loop reports the first failing certificate with the
index at which the loop counter reaches it. -/
theorem intermediatesLoop_first_err (env : X509Env) (roots : List Certificate)
    (e : String) :
    ∀ (l : List Certificate) (k i : Nat) (hi : i < l.length),
      (∀ j (hj : j < i),
        verifyIntermediate env (l.get ⟨j, Nat.lt_trans hj hi⟩) roots = none) →
      verifyIntermediate env (l.get ⟨i, hi⟩) roots = some e →
      intermediatesLoop env roots k l =
        some ("chain[" ++ toString (k + i) ++ "]: " ++ e) := by
  intro l
  induction l with
  | nil => intro k i hi; exact absurd hi (by simp)
  | cons c rest ih =>
    intro k i hi hprev he
    match i with
    | 0 =>
      simp only [List.get] at he
      simp [intermediatesLoop, he]
    | i' + 1 =>
      have hc : verifyIntermediate env c roots = none :=
        hprev 0 (Nat.succ_pos i')
      simp only [intermediatesLoop, hc]
      have hi' : i' < rest.length := Nat.lt_of_succ_lt_succ hi
      have hrec := ih (k + 1) i' hi'
        (fun j hj => hprev (j + 1) (Nat.succ_lt_succ hj)) he
      have hk : (k + 1) + i' = k + (i' + 1) := by omega
      rw [hk] at hrec
      exact hrec

/-- C4: for every non-empty chain, `verifyChain` validates `chain[0]` under
the leaf policy (failure annotated `chain[0]`), validates each later
`chain[i]` under the CA policy against the roots, failing at the first
violation with the error annotated `chain[i]`, and when all policy checks
pass it runs generic path validation of `chain[0]` against the roots with
`chain[1:]` as intermediates, returning `chain[0]` on success. -/
theorem verifyChain_spec (env : X509Env) (leaf : Certificate)
    (rest roots : List Certificate) :
    (∀ e, validateLeaf leaf = some e →
      verifyChain env (leaf :: rest) roots = .err ("chain[0]: " ++ e)) ∧
    (validateLeaf leaf = none →
      ∀ i (hi : i < rest.length) e,
        (∀ j (hj : j < i),
          verifyIntermediate env (rest.get ⟨j, Nat.lt_trans hj hi⟩) roots = none) →
        verifyIntermediate env (rest.get ⟨i, hi⟩) roots = some e →
        verifyChain env (leaf :: rest) roots =
          .err ("chain[" ++ toString (i + 1) ++ "]: " ++ e)) ∧
    (validateLeaf leaf = none →
      (∀ c ∈ rest, verifyIntermediate env c roots = none) →
      verifyChain env (leaf :: rest) roots =
        match env.verify leaf rest roots with
        | some e => .err e
        | none => .ok leaf) := by
  refine ⟨?_, ?_, ?_⟩
  · intro e he
    simp [verifyChain, he]
  · intro hleaf i hi e hprev he
    have hloop := intermediatesLoop_first_err env roots e rest 1 i hi hprev he
    have h1 : 1 + i = i + 1 := Nat.add_comm 1 i
    rw [h1] at hloop
    simp [verifyChain, hleaf, hloop]
  · intro hleaf hall
    have hloop := intermediatesLoop_eq_none env roots 1 rest hall
    simp only [verifyChain, hleaf, hloop]

/-- C4 (witness): the characterisation applied to the generator-shaped
chain `[goodLeaf, goodInt]` against `[goodRoot]` in an environment where
path validation succeeds: the validated leaf is returned. -/
theorem verifyChain_spec_witness :
    verifyChain envAllOk [goodLeaf, goodInt] [goodRoot] = .ok goodLeaf := by
  have h := (verifyChain_spec envAllOk goodLeaf [goodInt] [goodRoot]).2.2 rfl
    (by decide)
  exact h

/-- The root loop succeeds when every root passes `verifyRoot`. -/
theorem rootsLoop_eq_none (env : X509Env) (k : Nat) (l : List Certificate)
    (h : ∀ c ∈ l, verifyRoot env c = none) :
    rootsLoop env k l = none := by
  induction l generalizing k with
  | nil => rfl
  | cons c rest ih =>
    have hc := h c (List.mem_cons_self c rest)
    simp only [rootsLoop, hc]
    exact ih (k + 1) (fun x hx => h x (List.mem_cons_of_mem c hx))

/-- A succeeding root loop means every root passed `verifyRoot`. -/
theorem rootsLoop_none_forall (env : X509Env) :
    ∀ (k : Nat) (l : List Certificate), rootsLoop env k l = none →
      ∀ c ∈ l, verifyRoot env c = none := by
  intro k l
  induction l generalizing k with
  | nil => intro _ c hc; cases hc
  | cons c rest ih =>
    intro h x hx
    by_cases hc : verifyRoot env c = none
    · rcases List.mem_cons.mp hx with hx0 | hx'
      · rw [hx0]; exact hc
      · simp only [rootsLoop, hc] at h
        exact ih (k + 1) h x hx'
    · exfalso
      match hr : verifyRoot env c with
      | none => exact hc hr
      | some e => simp [rootsLoop, hr] at h

/-- The root loop reports the first failing root with the index the loop
counter reaches it at. -/
theorem rootsLoop_first_err (env : X509Env) (e : String) :
    ∀ (l : List Certificate) (k i : Nat) (hi : i < l.length),
      (∀ j (hj : j < i), verifyRoot env (l.get ⟨j, Nat.lt_trans hj hi⟩) = none) →
      verifyRoot env (l.get ⟨i, hi⟩) = some e →
      rootsLoop env k l = some ("trust: root[" ++ toString (k + i) ++ "]: " ++ e) := by
  intro l
  induction l with
  | nil => intro k i hi; exact absurd hi (by simp)
  | cons c rest ih =>
    intro k i hi hprev he
    match i with
    | 0 =>
      simp only [List.get] at he
      simp [rootsLoop, he]
    | i' + 1 =>
      have hc : verifyRoot env c = none := hprev 0 (Nat.succ_pos i')
      simp only [rootsLoop, hc]
      have hi' : i' < rest.length := Nat.lt_of_succ_lt_succ hi
      have hrec := ih (k + 1) i' hi'
        (fun j hj => hprev (j + 1) (Nat.succ_lt_succ hj)) he
      have hk : (k + 1) + i' = k + (i' + 1) := by omega
      rw [hk] at hrec
      exact hrec

/-- C5: the CA policy used for intermediates and roots.  A certificate
passes `validateCertificate` followed by `verifyCA` against a root pool iff
it is a CA, its key usage is exactly cert-sign, its extended key usage is
empty, its basic constraints are valid, and generic path validation
against that pool succeeds; `verifyRoot` is exactly this check against the
singleton pool containing the certificate itself; in `NewBundle` the roots
are validated independently in order and the first failing root is
reported with its index. -/
theorem validateCA_spec (env : X509Env) (c : Certificate) (roots : List Certificate) :
    (verifyIntermediate env c roots = none ↔
      c.isCA = true ∧ c.keyUsage = keyUsageCertSign ∧ c.extKeyUsage = [] ∧
      c.basicConstraintsValid = true ∧ env.verify c [] roots = none) ∧
    (verifyRoot env c = verifyIntermediate env c [c]) ∧
    (∀ (chain rts : List Certificate) (signer : Signer) i (hi : i < rts.length) e,
      chain ≠ [] →
      (∀ j (hj : j < i), verifyRoot env (rts.get ⟨j, Nat.lt_trans hj hi⟩) = none) →
      verifyRoot env (rts.get ⟨i, hi⟩) = some e →
      NewBundle env chain signer rts =
        .err ("trust: root[" ++ toString i ++ "]: " ++ e)) := by
  refine ⟨?_, rfl, ?_⟩
  · unfold verifyIntermediate validateCertificate verifyCA
    cases hb : c.basicConstraintsValid with
    | false => simp
    | true =>
      simp only [Bool.not_true, Bool.false_eq_true, if_false]
      cases hca : c.isCA with
      | false => simp
      | true =>
        simp only [Bool.not_true, Bool.false_eq_true, if_false, true_and]
        by_cases hku : c.keyUsage = keyUsageCertSign
        · simp only [hku, ne_eq, not_true_eq_false, if_false, true_and]
          by_cases hek : c.extKeyUsage = []
          · simp [hek]
          · simp [hek, List.length_eq_zero]
        · simp [hku]
  · intro chain rts signer i hi e hchain hprev he
    have hloop := rootsLoop_first_err env e rts 0 i hi hprev he
    have h0 : (0 : Nat) + i = i := Nat.zero_add i
    rw [h0] at hloop
    match chain with
    | [] => exact absurd rfl hchain
    | c0 :: cs =>
      have hrts : rts.length ≠ 0 := by
        intro h0'
        rw [h0'] at hi
        exact Nat.not_lt_zero i hi
      simp [NewBundle, hrts, hloop]

/-- C5 (witness): a root with its CA flag cleared (the repository's own
negative test case) makes `NewBundle` fail naming root index 0. -/
theorem validateCA_spec_witness :
    NewBundle envAllOk [goodLeaf] goodSigner [notCARoot] =
      .err ("trust: root[" ++ toString 0 ++ "]: " ++ "not a CA") :=
  (validateCA_spec envAllOk notCARoot [notCARoot]).2.2 [goodLeaf] [notCARoot]
    goodSigner 0 (by decide) "not a CA" (by simp) (by decide) (by decide)

/-- A file system whose key file holds a private-key block followed by a
certificate block (trailing content after the first block). -/
def fsKeyWithTrailer : FileSystem := fun _ => .ok [pkBlock, certBlockRoot]

/-- C8 (counterexample): the claim requires any content after the
private-key block to be a decode error, but `LoadPrivateKey` discards
everything after the first block: a key file holding a private-key block
followed by a certificate block decodes successfully. -/
theorem LoadPrivateKey_ignores_trailer :
    certBlockRoot.type ≠ "PRIVATE KEY" ∧
    fsKeyWithTrailer "key.pem" = .ok [pkBlock, certBlockRoot] ∧
    LoadPrivateKey envFull fsKeyWithTrailer "key.pem" = .ok keyFixture := by
  exact ⟨by decide, rfl, rfl⟩

/-- C8 (amended): decoding a key file succeeds only when the file's first
block is a private-key block whose contents parse as PKCS #8; a file with
no block, or with a non-private-key first block, is a decode error naming
the file — but content after the first block is discarded, not rejected. -/
theorem LoadPrivateKey_spec (env : X509Env) (fs : FileSystem) (name : String) :
    (∀ blk rest, fs name = .ok (blk :: rest) → blk.type = "PRIVATE KEY" →
      LoadPrivateKey env fs name = env.parsePKCS8 blk.bytes) ∧
    (fs name = .ok [] →
      LoadPrivateKey env fs name =
        .error ("trust: load " ++ name ++ ": no private key found")) ∧
    (∀ blk rest, fs name = .ok (blk :: rest) → blk.type ≠ "PRIVATE KEY" →
      LoadPrivateKey env fs name =
        .error ("trust: load " ++ name ++ ": no private key found")) := by
  refine ⟨?_, ?_, ?_⟩
  · intro blk rest hfs htype
    simp [LoadPrivateKey, hfs, htype]
  · intro hfs
    simp [LoadPrivateKey, hfs]
  · intro blk rest hfs htype
    simp [LoadPrivateKey, hfs, htype]

/-- C8 (witness): the amended characterisation applied to the file with a
trailing block: the result is exactly the PKCS #8 parse of the first
block's contents. -/
theorem LoadPrivateKey_spec_witness :
    LoadPrivateKey envFull fsKeyWithTrailer "key.pem" =
      envFull.parsePKCS8 pkBlock.bytes :=
  (LoadPrivateKey_spec envFull fsKeyWithTrailer "key.pem").1
    pkBlock [certBlockRoot] rfl rfl

/-- A file system for the loader counterexamples: the certificate-chain
file is well-formed PEM with no certificate block, the key file holds a
private-key block, the CA file one root certificate block. -/
def fsNoLeafCerts : FileSystem := fun name =>
  if name = "key.pem" then .ok [pkBlock]
  else if name = "ca.pem" then .ok [certBlockRoot]
  else .ok []

/-- The same material under entirely different file names. -/
def fsNoLeafCertsAlt : FileSystem := fun name =>
  if name = "k.crt" then .ok [pkBlock]
  else if name = "roots.crt" then .ok [certBlockRoot]
  else .ok []

/-- C9 (counterexample): a construct failure surfaces from `LoadPEM` with
the construct error unchanged and no file name attached: the identical
error string `trust: empty chain` is produced under two entirely different
sets of file names, so the error cannot be prefixed with (or contain) the
failing file's name. -/
theorem LoadPEM_error_has_no_filename :
    LoadPEM envFull fsNoLeafCerts "cert.pem" "key.pem" "ca.pem" =
      .err "trust: empty chain" ∧
    LoadPEM envFull fsNoLeafCertsAlt "chain.crt" "k.crt" "roots.crt" =
      .err "trust: empty chain" :=
  ⟨rfl, rfl⟩

/-- C9 (amended): when the three files load and decode successfully,
`LoadPEM` returns exactly the result of `NewBundle` on the decoded
material: construct errors are propagated unchanged, with no file-name
prefix added. -/
theorem LoadPEM_propagates_construct (env : X509Env) (fs : FileSystem)
    (certFile keyFile caFile : String) (chain roots : List Certificate)
    (signer : Signer) :
    LoadCertificates env fs certFile = .ok chain →
    LoadPrivateKey env fs keyFile = .ok signer →
    LoadCertificates env fs caFile = .ok roots →
    LoadPEM env fs certFile keyFile caFile = NewBundle env chain signer roots := by
  intro hcert hkey hca
  simp [LoadPEM, hcert, hkey, hca]

/-- C9 (witness): the propagation theorem at the concrete file system whose
certificate file decodes to the empty chain. -/
theorem LoadPEM_propagates_construct_witness :
    LoadPEM envFull fsNoLeafCerts "cert.pem" "key.pem" "ca.pem" =
      NewBundle envFull [] keyFixture [goodRoot] :=
  LoadPEM_propagates_construct envFull fsNoLeafCerts "cert.pem" "key.pem" "ca.pem"
    [] [goodRoot] keyFixture rfl rfl rfl

/-- Skipping non-certificate blocks leaves no DER to parse. -/
theorem collectCertificateDER_eq_nil (bs : List Block)
    (h : ∀ b ∈ bs, b.type ≠ "CERTIFICATE") :
    collectCertificateDER bs = [] := by
  induction bs with
  | nil => rfl
  | cons b rest ih =>
    have hb := h b (List.mem_cons_self b rest)
    simp only [collectCertificateDER, if_pos hb]
    exact ih (fun x hx => h x (List.mem_cons_of_mem b hx))

/-- C10: a well-formed PEM file with no certificate-typed block yields the
empty certificate list with no error (Go's `ParseCertificates` on empty
DER returns an empty slice and a nil error); consequently `LoadPEM` on
such a certificate-chain file — when the key and CA files load fine —
fails with construct's empty-chain error, not with a PEM decode error
naming the file. -/
theorem LoadCertificates_no_cert_blocks (env : X509Env) (fs : FileSystem)
    (certFile keyFile caFile : String) (bs : List Block) (signer : Signer)
    (roots : List Certificate) :
    (fs certFile = .ok bs → (∀ b ∈ bs, b.type ≠ "CERTIFICATE") →
      LoadCertificates env fs certFile = .ok []) ∧
    (fs certFile = .ok bs → (∀ b ∈ bs, b.type ≠ "CERTIFICATE") →
      LoadPrivateKey env fs keyFile = .ok signer →
      LoadCertificates env fs caFile = .ok roots →
      LoadPEM env fs certFile keyFile caFile = .err "trust: empty chain") := by
  have hload : fs certFile = .ok bs → (∀ b ∈ bs, b.type ≠ "CERTIFICATE") →
      LoadCertificates env fs certFile = .ok [] := by
    intro hfs hb
    simp [LoadCertificates, hfs, collectCertificateDER_eq_nil bs hb, parseCertificates]
  refine ⟨hload, fun hfs hb hkey hca => ?_⟩
  rw [LoadPEM_propagates_construct env fs certFile keyFile caFile [] roots signer
    (hload hfs hb) hkey hca]
  rfl

/-- A file system whose certificate-chain file holds only a block of an
unrecognised type. -/
def fsGarbageCert : FileSystem := fun name =>
  if name = "cert.pem" then .ok [garbageBlock]
  else if name = "key.pem" then .ok [pkBlock]
  else .ok [certBlockRoot]

/-- C10 (witness): at the concrete file system whose certificate file is a
well-formed non-certificate block, `LoadPEM` fails with the construct
empty-chain error. -/
theorem LoadCertificates_no_cert_blocks_witness :
    LoadPEM envFull fsGarbageCert "cert.pem" "key.pem" "ca.pem" =
      .err "trust: empty chain" :=
  (LoadCertificates_no_cert_blocks envFull fsGarbageCert "cert.pem" "key.pem"
    "ca.pem" [garbageBlock] keyFixture [goodRoot]).2 rfl (by decide) rfl rfl

end Trust
